import Mathlib

/-!
Shallow embedding of the protobuf-lsp core:
  * the line-oriented scanner `ProtoParser::parse_simple` (src/parser/proto.rs),
  * the cached entry point `ProtoParser::parse` / `clear_cache`,
  * the import resolver `ImportResolver::resolve_import` (src/parser/resolver.rs),
  * the workspace transitive-import collection
    `WorkspaceManager::collect_imports_recursive_async` (src/workspace/manager.rs).

Rust strings are modelled as Lean `String`; source text is modelled as its list
of lines (Rust iterates `content.lines()`).  Character positions are character
indices (Rust uses byte indices; they agree on ASCII input, which is all the
claims exercise).  Filesystem paths are lists of components; filesystem
existence is an oracle function.  `u32` line counters are `Nat` (they never
wrap), the `i32` brace counter is `Int`, and `i32` field numbers are `Int`
with the parse guard enforcing the `i32` range exactly as `str::parse::<i32>`
does.
-/

/-- Character-index analogue of Rust `str::find(pat)`: index of the first
occurrence of `pat` in the haystack, `some 0` for an empty pattern. -/
def listSubIdx (pat : List Char) : List Char → Option Nat
  | [] => if pat.isEmpty then some 0 else none
  | c :: t => if pat.isPrefixOf (c :: t) then some 0 else (listSubIdx pat t).map (· + 1)

def strFind (s pat : String) : Option Nat :=
  listSubIdx pat.data s.data

/-- Rust `str::contains(&str)`. -/
def strContainsS (s pat : String) : Bool :=
  (strFind s pat).isSome

/-- Rust `str::contains(char)`. -/
def strContainsC (s : String) (c : Char) : Bool :=
  s.data.contains c

/-- Rust `str::starts_with(&str)`. -/
def sw (s pre : String) : Bool :=
  pre.data.isPrefixOf s.data

/-- Rust `str::ends_with(&str)`. -/
def ew (s suf : String) : Bool :=
  suf.data.isSuffixOf s.data

/-- Rust `str::ends_with(char)`. -/
def ewc (s : String) (c : Char) : Bool :=
  s.data.getLast? == some c

def strTakeChars (s : String) (n : Nat) : String :=
  ⟨s.data.take n⟩

def strDropChars (s : String) (n : Nat) : String :=
  ⟨s.data.drop n⟩

/-- Rust `str::trim` (strip whitespace from both ends). -/
def strTrim (s : String) : String :=
  ⟨((s.data.dropWhile Char.isWhitespace).reverse.dropWhile Char.isWhitespace).reverse⟩

def strIsEmpty (s : String) : Bool :=
  s.data.isEmpty

/-- Rust `str::split_whitespace` (maximal non-whitespace runs). -/
def splitWsGo : List Char → List Char → List (List Char)
  | [], acc => if acc.isEmpty then [] else [acc.reverse]
  | c :: t, acc =>
    if c.isWhitespace then
      (if acc.isEmpty then splitWsGo t [] else acc.reverse :: splitWsGo t [])
    else splitWsGo t (c :: acc)

def splitWs (s : String) : List String :=
  (splitWsGo s.data []).map (fun l => String.mk l)

/-- One round of Rust `str::trim_start_matches(&str)` applied repeatedly;
the fuel (initialised to the haystack length) dominates the number of
possible strips because each strip removes at least one character. -/
def dropPreAllF : Nat → List Char → List Char → List Char
  | 0, _, l => l
  | Nat.succ f, pat, l =>
    if !pat.isEmpty && pat.isPrefixOf l then dropPreAllF f pat (l.drop pat.length) else l

/-- Rust `str::trim_start_matches(&str)` (removes every repeated prefix copy). -/
def trimStartAll (pat s : String) : String :=
  ⟨dropPreAllF s.data.length pat.data s.data⟩

/-- Rust `str::trim_end_matches(&str)` (removes every repeated suffix copy). -/
def trimEndAll (pat s : String) : String :=
  ⟨(dropPreAllF s.data.length pat.data.reverse s.data.reverse).reverse⟩

/-- Rust `str::trim_end_matches(char)`. -/
def trimEndAllC (c : Char) (s : String) : String :=
  ⟨(s.data.reverse.dropWhile (· == c)).reverse⟩

def digitsVal : List Char → Option Nat
  | [] => none
  | l => if l.all Char.isDigit then some (l.foldl (fun a c => a * 10 + (c.toNat - 48)) 0) else none

/-- Rust `str::parse::<i32>()`: optional sign, at least one ASCII digit,
result must fit in `i32`. -/
def parseI32 (s : String) : Option Int :=
  let core : List Char → Int → Option Int := fun ds sign =>
    match digitsVal ds with
    | none => none
    | some v =>
      let i : Int := sign * (v : Int)
      if -2147483648 ≤ i ∧ i ≤ 2147483647 then some i else none
  match s.data with
  | '-' :: t => core t (-1)
  | '+' :: t => core t 1
  | t => core t 1

/-- Net `{`/`}` balance of a line added to a running counter
(the scanner's custom-option brace tracking loop over `line.chars()`). -/
def braceDelta (line : String) (start : Int) : Int :=
  line.data.foldl
    (fun a c => if c == '\x7b' then a + 1 else if c == '\x7d' then a - 1 else a) start

/- ## Data model (src/parser/proto.rs) -/

inductive ErrorSeverity where
  | Error
  | Warning
  | Info
deriving DecidableEq

structure ParseError where
  message : String
  line : Nat
  character : Nat
  severity : ErrorSeverity
deriving DecidableEq

structure ImportElement where
  path : String
  line : Nat
  character : Nat
deriving DecidableEq

inductive FieldLabelProto where
  | Optional
  | Required
  | Repeated
deriving DecidableEq

structure FieldElement where
  name : String
  field_type : String
  type_name : Option String
  number : Int
  label : Option FieldLabelProto
  line : Nat
  character : Nat
deriving DecidableEq

structure EnumValueElement where
  name : String
  number : Int
  line : Nat
  character : Nat
deriving DecidableEq

structure EnumElement where
  name : String
  full_name : String
  values : List EnumValueElement
  line : Nat
  end_line : Nat
  character : Nat
deriving DecidableEq

/-- `MessageElement` is a nested inductive because messages nest. -/
inductive MessageElement where
  | mk
    (name : String)
    (full_name : String)
    (fields : List FieldElement)
    (nested_messages : List MessageElement)
    (nested_enums : List EnumElement)
    (line : Nat)
    (end_line : Nat)
    (character : Nat)

mutual

def msgDecEq : (a b : MessageElement) → Decidable (a = b)
  | .mk n1 f1 fs1 ms1 es1 l1 e1 c1, .mk n2 f2 fs2 ms2 es2 l2 e2 c2 =>
    match msgListDecEq ms1 ms2 with
    | isFalse h => isFalse (fun he => by cases he; exact h rfl)
    | isTrue h4 =>
      if h1 : n1 = n2 then
        if h2 : f1 = f2 then
          if h3 : fs1 = fs2 then
            if h5 : es1 = es2 then
              if h6 : l1 = l2 then
                if h7 : e1 = e2 then
                  if h8 : c1 = c2 then
                    isTrue (by rw [h1, h2, h3, h4, h5, h6, h7, h8])
                  else isFalse (fun he => by cases he; exact h8 rfl)
                else isFalse (fun he => by cases he; exact h7 rfl)
              else isFalse (fun he => by cases he; exact h6 rfl)
            else isFalse (fun he => by cases he; exact h5 rfl)
          else isFalse (fun he => by cases he; exact h3 rfl)
        else isFalse (fun he => by cases he; exact h2 rfl)
      else isFalse (fun he => by cases he; exact h1 rfl)

def msgListDecEq : (l1 l2 : List MessageElement) → Decidable (l1 = l2)
  | [], [] => isTrue rfl
  | [], _ :: _ => isFalse (by simp)
  | _ :: _, [] => isFalse (by simp)
  | a :: t1, b :: t2 =>
    match msgDecEq a b with
    | isFalse h => isFalse (by simp [h])
    | isTrue h =>
      match msgListDecEq t1 t2 with
      | isFalse h' => isFalse (by simp [h, h'])
      | isTrue h' => isTrue (by rw [h, h'])

end

instance : DecidableEq MessageElement := msgDecEq

def MessageElement.name : MessageElement → String
  | .mk n _ _ _ _ _ _ _ => n

def MessageElement.full_name : MessageElement → String
  | .mk _ f _ _ _ _ _ _ => f

def MessageElement.fields : MessageElement → List FieldElement
  | .mk _ _ fs _ _ _ _ _ => fs

def MessageElement.nested_messages : MessageElement → List MessageElement
  | .mk _ _ _ ms _ _ _ _ => ms

def MessageElement.nested_enums : MessageElement → List EnumElement
  | .mk _ _ _ _ es _ _ _ => es

def MessageElement.line : MessageElement → Nat
  | .mk _ _ _ _ _ l _ _ => l

def MessageElement.end_line : MessageElement → Nat
  | .mk _ _ _ _ _ _ e _ => e

def MessageElement.character : MessageElement → Nat
  | .mk _ _ _ _ _ _ _ c => c

structure MethodElement where
  name : String
  input_type : String
  output_type : String
  client_streaming : Bool
  server_streaming : Bool
  line : Nat
  character : Nat
deriving DecidableEq

structure ServiceElement where
  name : String
  full_name : String
  methods : List MethodElement
  line : Nat
  end_line : Nat
  character : Nat
deriving DecidableEq

inductive ProtoElement where
  | Message (m : MessageElement)
  | Enum (e : EnumElement)
  | Service (s : ServiceElement)
  | Field (f : FieldElement)
  | Method (m : MethodElement)
deriving DecidableEq

/-- `ParsedProto`; `file_descriptor` is always `None` on the simple-parser
path, so its foreign payload type is modelled as `Unit`. -/
structure ParsedProto where
  uri : String
  package : Option String
  imports : List ImportElement
  messages : List MessageElement
  enums : List EnumElement
  services : List ServiceElement
  line_to_element : List (Nat × ProtoElement)
  parse_errors : List ParseError
  file_descriptor : Option Unit
deriving DecidableEq

/-- `HashMap::insert` on the association-list model of `line_to_element`. -/
def assocInsert (m : List (Nat × ProtoElement)) (k : Nat) (v : ProtoElement) :
    List (Nat × ProtoElement) :=
  (k, v) :: m.filter (fun p => p.1 != k)

/- ## Scanner state (the locals of `ProtoParser::parse_simple`) -/

/-- One entry of the Rust `message_stack`
`(String, u32, Vec<FieldElement>, Vec<MessageElement>, Vec<EnumElement>)`. -/
structure MsgFrame where
  name : String
  line : Nat
  fields : List FieldElement
  nested_messages : List MessageElement
  nested_enums : List EnumElement
deriving DecidableEq

/-- One entry of the Rust `enum_stack` `(String, u32, Vec<EnumValueElement>)`. -/
structure EnumFrame where
  name : String
  line : Nat
  values : List EnumValueElement
deriving DecidableEq

/-- All mutable locals of `parse_simple`; the head of each stack list is the
Rust `Vec`'s last element (its top). -/
structure ScanState where
  package : Option String
  imports : List ImportElement
  messages : List MessageElement
  enums : List EnumElement
  services : List ServiceElement
  line_to_element : List (Nat × ProtoElement)
  parse_errors : List ParseError
  message_stack : List MsgFrame
  enum_stack : List EnumFrame
  is_proto3 : Bool
  multiline_field : Option (String × String × Nat)
  in_custom_option : Bool
  custom_option_brace_count : Int
  in_block_comment : Bool
deriving DecidableEq

def initState : ScanState :=
  ⟨none, [], [], [], [], [], [], [], [], false, none, false, 0, false⟩

/-- The shared `full_name` construction
`if let Some(pkg) = &package { format!("{}.{}", pkg, name) } else { name }`. -/
def mkFullName : Option String → String → String
  | some p, n => p ++ (".") ++ n
  | none, n => n

/-- Block-comment stripping shared by the main loop and
`parse_service_methods`: given the flag and the raw line, returns the
processed line and the new flag. -/
def processComment (ibc : Bool) (line : String) : String × Bool :=
  if ibc then
    match strFind line ("*/") with
    | some p => (strDropChars line (p + 2), false)
    | none => (("" : String), true)
  else
    match strFind line ("/*") with
    | some sp =>
      match strFind (strDropChars line sp) ("*/") with
      | some ep => ((strTakeChars line sp) ++ (strDropChars line (sp + ep + 2)), false)
      | none => (strTakeChars line sp, true)
    | none => (line, false)

/-- `ProtoParser::is_valid_field_type` (Rust `is_uppercase` is approximated by
ASCII `Char.isUpper`; all claim inputs are ASCII). -/
def is_valid_field_type (s : String) : Bool :=
  (s == ("double") || s == ("float") || s == ("int32") || s == ("int64") ||
   s == ("uint32") || s == ("uint64") || s == ("sint32") || s == ("sint64") ||
   s == ("fixed32") || s == ("fixed64") || s == ("sfixed32") || s == ("sfixed64") ||
   s == ("bool") || s == ("string") || s == ("bytes") || s == ("map")) ||
  strContainsC s '.' ||
  (decide (0 < s.data.length) && (s.data.headD ' ').isUpper)

def strFindC (s : String) (c : Char) : Option Nat :=
  s.data.findIdx? (· == c)

def strSlice (s : String) (a b : Nat) : String :=
  strDropChars (strTakeChars s b) a

/-- The recurring `if let Some(comment_pos) = trimmed.find("//") { &trimmed[..comment_pos].trim() } else { trimmed }` snippet. -/
def stripLineComment (t : String) : String :=
  match strFind t ("//") with
  | some cp => strTrim (strTakeChars t cp)
  | none => t

/-- `ProtoParser::parse_field_simple`. -/
def parse_field_simple (line original_line : String) : Option (String × String × Int × Nat) := do
  let lnc := stripLineComment line
  let eqPos ← strFindC lnc '='
  let beforeEq := strTrim (strTakeChars lnc eqPos)
  let afterEq := strTrim (strDropChars lnc (eqPos + 1))
  let parts := splitWs beforeEq
  let (fieldType, fieldName) ←
    match parts with
    | [a, b] => some (a, b)
    | [_, b, c] => some (b, c)
    | _ => none
  if is_valid_field_type fieldType then
    let afterFirst :=
      match strFindC afterEq '[' with
      | some i => strTakeChars afterEq i
      | none => afterEq
    let numberPart := trimEndAllC ';' (strTrim afterFirst)
    let number ← parseI32 numberPart
    let charPos := (strFind original_line fieldName).getD 0
    some (fieldName, fieldType, number, charPos)
  else
    none

/-- `ProtoParser::extract_service_block` (kept as a line list; the Rust code
joins with `\n` and re-splits, which round-trips). -/
def esbGo : List String → Int → Bool → List String
  | [], _, _ => []
  | l :: rest, cnt, fo =>
    let cnt' := braceDelta l cnt
    let fo' := fo || strContainsC l '\x7b'
    l :: (if fo' && cnt' == 0 then [] else esbGo rest cnt' fo')

def extract_service_block (content : List String) (start_line : Nat) : List String :=
  esbGo (content.drop start_line) 0 false

/-- `ProtoParser::parse_service_methods`, one line at a time. -/
def psmLine (processed : String) (line_num : Nat) : Option MethodElement := do
  let t := strTrim processed
  let parts := splitWs t
  if sw t ("rpc ") ∧ 4 ≤ parts.length then
    let methodName := parts.getD 1 ("")
    let inStart ← strFindC t '('
    let inEnd ← strFindC t ')'
    let inputType := (splitWs (strSlice t (inStart + 1) inEnd)).headD ("")
    let retPos ← strFind t ("returns")
    let retPart := strDropChars t (retPos + 7)
    let outStart ← strFindC retPart '('
    let outEnd ← strFindC retPart ')'
    let outputType := (splitWs (strSlice retPart (outStart + 1) outEnd)).headD ("")
    let charPos := (strFind processed ("rpc")).getD 0
    some ⟨methodName, inputType, outputType, false, false, line_num, charPos⟩
  else
    none

def psmGo : List String → Nat → Bool → List MethodElement
  | [], _, _ => []
  | l :: rest, ln, ibc =>
    if sw (strTrim l) ("//") then psmGo rest (ln + 1) ibc
    else
      let pr := processComment ibc l
      if strIsEmpty (strTrim pr.1) then psmGo rest (ln + 1) pr.2
      else
        match psmLine pr.1 ln with
        | some m => m :: psmGo rest (ln + 1) pr.2
        | none => psmGo rest (ln + 1) pr.2

def parse_service_methods (service_content : List String) (service_start_line : Nat) :
    List MethodElement :=
  psmGo service_content service_start_line false

/-- Closing a message frame (the shared shape of the `}`-branch and the
forced flush before a `service` line). -/
def closeMsgFrame (content : List String) (package : Option String) (f : MsgFrame)
    (end_line : Nat) : MessageElement :=
  .mk f.name (mkFullName package f.name) f.fields f.nested_messages f.nested_enums
    f.line end_line ((strFind (content.getD f.line ("")) ("message")).getD 0)

/-- Closing an enum frame (the `}`-branch for enums). -/
def closeEnumFrame (content : List String) (package : Option String) (f : EnumFrame)
    (end_line : Nat) : EnumElement :=
  ⟨f.name, mkFullName package f.name, f.values, f.line, end_line,
    (strFind (content.getD f.line ("")) ("enum")).getD 0⟩

/-- The `while !message_stack.is_empty()` flush loop in the `service` branch
(each popped frame is closed with `end_line = line_number - 1` and appended
to the top-level message list). -/
def drainGo (content : List String) (package : Option String) (end_line : Nat) :
    List MsgFrame → List MessageElement → List (Nat × ProtoElement) →
    List MessageElement × List (Nat × ProtoElement)
  | [], msgs, lte => (msgs, lte)
  | f :: rest, msgs, lte =>
    let m := closeMsgFrame content package f end_line
    drainGo content package end_line rest (msgs ++ [m]) (assocInsert lte f.line (.Message m))

/-- Push a parse error (the recurring `parse_errors.push(...)`). -/
def pushErr (st : ScanState) (e : ParseError) : ScanState :=
  { st with parse_errors := st.parse_errors ++ [e] }

/-- Push a completed field onto the innermost open message frame
(`message_stack.last_mut().2.push(...)`; the stack is non-empty on every
call site, the empty case is the unreachable no-op). -/
def pushField (st : ScanState) (f : FieldElement) : ScanState :=
  match st.message_stack with
  | mf :: rest => { st with message_stack := { mf with fields := mf.fields ++ [f] } :: rest }
  | [] => st

/-- The message text of the dead proto3-`optional` lint (source line 938). -/
def proto3OptionalMsg : String :=
  ("\x27optional\x27 keyword is not valid in proto3 syntax. In proto3, all fields are optional by default. Use \x27optional\x27 only for proto2 syntax or with \x27oneof\x27 in proto3.")

/-- The enum-value branch (source lines 790-816): runs when the enum stack is
non-empty. -/
def enumValueStep (trimmed : String) (line_number : Nat) (st : ScanState) : ScanState :=
  if strContainsC trimmed '=' && ewc trimmed ';' then
    let parts := splitWs (stripLineComment trimmed)
    if 3 ≤ parts.length then
      match parts.get? 2 with
      | some numberStr =>
        match parseI32 (trimEndAllC ';' numberStr) with
        | some number =>
          match st.enum_stack with
          | ef :: rest =>
            { st with enum_stack :=
                { ef with values := ef.values ++ [⟨parts.getD 0 (""), number, line_number, 4⟩] } :: rest }
          | [] => st
        | none => st
      | none => st
    else st
  else st

/-- The field machinery (source lines 817-968): runs when the message stack is
non-empty, the line is not a comment and we are not inside a custom option. -/
def fieldStep (line processed trimmed : String) (line_number : Nat) (st : ScanState) :
    ScanState :=
  match st.multiline_field with
  | some (fieldName, fieldType, startLine) =>
    let st0 := { st with multiline_field := none }
    if strContainsC trimmed ';' then
      match (splitWs (trimEndAllC ';' (stripLineComment trimmed))).getLast? with
      | some numberStr =>
        match parseI32 numberStr with
        | some number =>
          pushField st0 ⟨fieldName, fieldType, none, number, none, startLine, 0⟩
        | none =>
          pushErr st0 ⟨("Invalid field number: \x27") ++ numberStr ++ ("\x27"),
            line_number, 0, .Error⟩
      | none => st0
    else { st0 with multiline_field := some (fieldName, fieldType, startLine) }
  | none =>
    if sw trimmed ("optional ") || sw trimmed ("required ") || sw trimmed ("repeated ") then
      let parts := splitWs trimmed
      if 3 ≤ parts.length then
        let fieldType := parts.getD 1 ("")
        let fieldName := parts.getD 2 ("")
        if ewc trimmed '=' then
          { st with multiline_field := some (fieldName, fieldType, line_number) }
        else if strContainsC trimmed '=' && (ewc trimmed ';' || strContainsC trimmed ';') then
          match parse_field_simple trimmed processed with
          | some (n, t, number, ch) =>
            pushField st ⟨n, t, none, number, none, line_number, ch⟩
          | none =>
            pushErr st ⟨("Invalid field syntax: \x27") ++ trimmed ++
              ("\x27. Expected format: [optional|required|repeated] type name = number;"),
              line_number, 0, .Error⟩
        else st
      else st
    else if strContainsC trimmed '=' && (ewc trimmed ';' || strContainsC trimmed ';') then
      if strContainsC trimmed '[' && strContainsC trimmed ']' then
        match parse_field_simple trimmed processed with
        | some (n, t, number, ch) =>
          pushField st ⟨n, t, none, number, none, line_number, ch⟩
        | none => st
      else
        match parse_field_simple trimmed processed with
        | some (n, t, number, ch) =>
          pushField st ⟨n, t, none, number, none, line_number, ch⟩
        | none =>
          pushErr st ⟨("Invalid field syntax: \x27") ++ trimmed ++
            ("\x27. Expected format: type name = number;"), line_number, 0, .Error⟩
    else if sw trimmed ("optional ") && st.is_proto3 && !strContainsC trimmed '=' then
      pushErr st ⟨proto3OptionalMsg, line_number, (strFind line ("optional")).getD 0, .Error⟩
    else if !sw trimmed ("message ") && !sw trimmed ("enum ") && !sw trimmed ("service ") &&
        trimmed != ("\x7d") && !sw trimmed ("//") && !sw trimmed ("/*") &&
        !sw trimmed ("option ") && !sw trimmed ("extend ") && !sw trimmed ("rpc ") &&
        !sw trimmed ("returns ") && !sw trimmed ("map<") then
      if strContainsC trimmed ':' && (strContainsS trimmed ("description:") ||
          strContainsS trimmed ("required:") || strContainsS trimmed ("hidden:") ||
          strContainsS trimmed ("default=")) then
        st
      else if sw trimmed ("\x7d,") || sw trimmed ("\x7d]") then
        st
      else if !strIsEmpty trimmed && !ewc trimmed ';' && !ewc trimmed '\x7b' &&
          !ewc trimmed '\x7d' then
        pushErr st ⟨("Unexpected syntax: \x27") ++ trimmed ++
          ("\x27. If this is a field, it should end with \x27;\x27"), line_number, 0, .Warning⟩
      else st
    else st

/-- The `}` branch (source lines 671-734). -/
def closeBraceStep (content : List String) (line_number : Nat) (st : ScanState) : ScanState :=
  match st.enum_stack with
  | ef :: erest =>
    let ee := closeEnumFrame content st.package ef line_number
    let st1 := { st with
      enum_stack := erest,
      line_to_element := assocInsert st.line_to_element ef.line (.Enum ee) }
    match st1.message_stack with
    | mf :: mrest =>
      { st1 with message_stack := { mf with nested_enums := mf.nested_enums ++ [ee] } :: mrest }
    | [] => { st1 with enums := st1.enums ++ [ee] }
  | [] =>
    match st.message_stack with
    | mf :: mrest =>
      let me := closeMsgFrame content st.package mf line_number
      let st1 := { st with
        message_stack := mrest,
        line_to_element := assocInsert st.line_to_element mf.line (.Message me) }
      match st1.message_stack with
      | pf :: prest =>
        { st1 with message_stack :=
            { pf with nested_messages := pf.nested_messages ++ [me] } :: prest }
      | [] => { st1 with messages := st1.messages ++ [me] }
    | [] => st

/-- The `service` branch (source lines 736-789): flush every open message
frame, then record the service with its re-scanned method block. -/
def serviceStep (content : List String) (processed trimmed : String) (line_number : Nat)
    (st : ScanState) : ScanState :=
  let drained := drainGo content st.package (line_number - 1) st.message_stack
    st.messages st.line_to_element
  let st1 := { st with
    message_stack := [],
    messages := drained.1,
    line_to_element := drained.2 }
  let parts := splitWs trimmed
  if 2 ≤ parts.length then
    let serviceName := parts.getD 1 ("")
    let se : ServiceElement :=
      ⟨serviceName, mkFullName st1.package serviceName,
        parse_service_methods (extract_service_block content line_number) line_number,
        line_number, line_number, (strFind processed ("service")).getD 0⟩
    { st1 with
      services := st1.services ++ [se],
      line_to_element := assocInsert st1.line_to_element line_number (.Service se) }
  else st1

/-- The `syntax` version flag update (source lines 546-552). -/
def syntaxFlagStep (trimmed : String) (st : ScanState) : ScanState :=
  if sw trimmed ("syntax ") then
    if strContainsS trimmed ("\"proto3\"") then { st with is_proto3 := true }
    else if strContainsS trimmed ("\"proto2\"") then { st with is_proto3 := false }
    else st
  else st

/-- The custom-option bracket/brace tracker (source lines 554-585). -/
def customOptionStep (line trimmed : String) (st : ScanState) : ScanState :=
  if strContainsC trimmed '[' && strContainsC trimmed '(' then
    let c := braceDelta line 0
    { st with
      in_custom_option := !(strContainsC trimmed ']' && decide (c ≤ 0)),
      custom_option_brace_count := c }
  else if st.in_custom_option then
    let c := braceDelta line st.custom_option_brace_count
    { st with
      in_custom_option := !(strContainsC trimmed ']' && decide (c ≤ 0)),
      custom_option_brace_count := c }
  else st

/-- The common-syntax-error checks (source lines 587-620). -/
def syntaxErrorChecks (line trimmed : String) (line_number : Nat) (st : ScanState) :
    ScanState :=
  if !sw trimmed ("//") && !st.in_custom_option then
    let sa :=
      if sw trimmed ("package ") && !ew trimmed (";") then
        pushErr st ⟨("Missing semicolon after package declaration"), line_number,
          line.data.length, .Error⟩
      else st
    let sb :=
      if sw trimmed ("import ") && !ew trimmed (";") then
        pushErr sa ⟨("Missing semicolon after import statement"), line_number,
          line.data.length, .Error⟩
      else sa
    if trimmed == ("message") || trimmed == ("enum") || trimmed == ("service") then
      pushErr sb ⟨("Missing name after ") ++
        (if trimmed == ("message") then ("message")
         else if trimmed == ("enum") then ("enum") else ("service")) ++
        (" declaration"), line_number, (strFind line trimmed).getD 0, .Error⟩
    else sb
  else st

/-- The main `if/else if` classification chain (source lines 622-969). -/
def scanDispatch (content : List String) (line processed trimmed : String)
    (line_number : Nat) (st4 : ScanState) : ScanState :=
  if sw trimmed ("package ") then
    { st4 with package := some (strTrim (trimEndAllC ';' (trimStartAll ("package ") trimmed))) }
  else if sw trimmed ("import ") then
    { st4 with imports := st4.imports ++
        [⟨trimEndAll ("\"") (trimEndAll ("\";") (trimStartAll ("\"")
            (trimStartAll ("import ") trimmed))),
          line_number, (strFind processed ("import")).getD 0⟩] }
  else if sw trimmed ("enum ") then
    { st4 with enum_stack :=
        ⟨(splitWs (trimStartAll ("enum ") trimmed)).headD (""), line_number, []⟩ ::
          st4.enum_stack }
  else if sw trimmed ("message ") then
    { st4 with message_stack :=
        ⟨(splitWs (trimStartAll ("message ") trimmed)).headD (""), line_number,
          [], [], []⟩ :: st4.message_stack }
  else if trimmed == ("\x7d") then
    closeBraceStep content line_number st4
  else if sw trimmed ("service") then
    serviceStep content processed trimmed line_number st4
  else if !st4.enum_stack.isEmpty && !sw trimmed ("//") then
    enumValueStep trimmed line_number st4
  else if !st4.message_stack.isEmpty && !sw trimmed ("//") && !st4.in_custom_option then
    fieldStep line processed trimmed line_number st4
  else st4

/-- One iteration of the `for (line_idx, line) in content.lines().enumerate()`
loop of `ProtoParser::parse_simple` (source lines 496-972), assembled from
the stages above. -/
def processLine (content : List String) (st : ScanState) (line_number : Nat) (line : String) :
    ScanState :=
  if sw (strTrim line) ("//") then st
  else
    let pr := processComment st.in_block_comment line
    let processed := pr.1
    let st1 := { st with in_block_comment := pr.2 }
    let trimmed := strTrim processed
    if strIsEmpty trimmed then st1
    else
      scanDispatch content line processed trimmed line_number
        (syntaxErrorChecks line trimmed line_number
          (customOptionStep line trimmed (syntaxFlagStep trimmed st1)))

/-- The whole line loop. -/
def goLines (content : List String) : List String → Nat → ScanState → ScanState
  | [], _, st => st
  | l :: rest, n, st => goLines content rest (n + 1) (processLine content st n l)

/-- `ProtoParser::parse_simple` on pre-split lines: the final state is
packaged into a `ParsedProto`; frames still open at end of input are
dropped. -/
def parse_simple (uri : String) (content : List String) : ParsedProto :=
  let fin := goLines content content 0 initState
  ⟨uri, fin.package, fin.imports, fin.messages, fin.enums, fin.services,
    fin.line_to_element, fin.parse_errors, none⟩

/-- `std::path::Path` modelled as its list of components; `Path::parent`
returns `none` exactly for the root/empty path. -/
def parentOf : List String → Option (List String)
  | [] => none
  | l => some l.dropLast

/-- The upward-walk loop of `ImportResolver::resolve_import` (source lines
39-67): test `current.join(import_path)`, then move to the parent, stopping
at the root (the `parent == current` guard is kept even though `dropLast`
never fixes a non-empty list). -/
def walk_up (fs : List String → Bool) (imp : List String)
    (cur : List String) : Option (List String) :=
  if fs (cur ++ imp) then some (cur ++ imp)
  else
    match h : parentOf cur with
    | some p => if p = cur then none else walk_up fs imp p
    | none => none
termination_by cur.length
decreasing_by
  cases cur with
  | nil => simp [parentOf] at h
  | cons a t =>
    simp only [parentOf, Option.some.injEq] at h
    subst h
    simp [List.length_dropLast]

/-- `ImportResolver::resolve_import`: configured additional directories in
order, then the importing file's parent directory, then the upward walk
(which re-tests the parent first). `fs` is the filesystem-existence oracle
(`Path::exists`). -/
def resolve_import (fs : List String → Bool) (additional_dirs : List (List String))
    (current_file imp : List String) : Option (List String) :=
  match additional_dirs.find? (fun d => fs (d ++ imp)) with
  | some d => some (d ++ imp)
  | none =>
    match parentOf current_file with
    | none => none
    | some par => if fs (par ++ imp) then some (par ++ imp) else walk_up fs imp par

/-- The chain `p, parent p, parent (parent p), …, root` — the spec's "the
importing file's own directory, then each ancestor directory walking upward
to the filesystem root". -/
def chainUp : List String → List (List String)
  | [] => [[]]
  | a :: t => (a :: t) :: chainUp (a :: t).dropLast
termination_by l => l.length
decreasing_by simp [List.length_dropLast]

/-- Modelled from the spec: the candidate list in the spec's stated priority
order — each configured additional root joined with the import path in
configuration order, then the importing file's own directory, then each
ancestor directory walking upward to the filesystem root. -/
def spec_candidates (additional_dirs : List (List String))
    (current_file imp : List String) : List (List String) :=
  (additional_dirs.map (· ++ imp)) ++
    (match parentOf current_file with
     | none => []
     | some par => (chainUp par).map (· ++ imp))

/-- Modelled from the spec: return the first candidate that exists. -/
def spec_resolve (fs : List String → Bool) (additional_dirs : List (List String))
    (current_file imp : List String) : Option (List String) :=
  (spec_candidates additional_dirs current_file imp).find? fs

/- ## Workspace transitive-import collection (src/workspace/manager.rs) -/

/-- `DashMap` lookup `files.get(uri)`; `open_file` always stores a document
under its own `uri` field, so the map is modelled as a list of documents
searched by that field. -/
def lookup_file (ws : List ParsedProto) (uri : String) : Option ParsedProto :=
  ws.find? (fun d => d.uri == uri)

/-- Unvisited documents remaining, the termination measure of the traversal. -/
def unvisitedCard (ws : List ParsedProto) (visited : List String) : Nat :=
  ((ws.map ParsedProto.uri).toFinset \ visited.toFinset).card

/-- Frame weight: pending imports plus one per open frame. -/
def stackWeight (stack : List (String × List ImportElement)) : Nat :=
  (stack.map (fun f => f.2.length + 1)).sum

/-- `WorkspaceManager::collect_imports_recursive_async` with its recursion
made explicit as a depth-first stack of `(current uri, remaining imports)`
frames: resolve each import (`resolveF` composes `resolve_import` and
`path_to_url`), look it up in the cache, skip it if its identity was already
visited, otherwise record it, mark it visited and descend into its imports
before continuing with the remaining ones — exactly the source's traversal
order (source lines 165-199, cached documents). -/
def collect_loop (resolveF : String → String → Option String) (ws : List ParsedProto) :
    List (String × List ImportElement) → List String → List ParsedProto → List ParsedProto
  | [], _, acc => acc
  | (_, []) :: rest, visited, acc => collect_loop resolveF ws rest visited acc
  | (u, imp :: imps) :: rest, visited, acc =>
    match hd : (resolveF u imp.path).bind (lookup_file ws) with
    | none => collect_loop resolveF ws ((u, imps) :: rest) visited acc
    | some d =>
      if hv : d.uri ∈ visited then
        collect_loop resolveF ws ((u, imps) :: rest) visited acc
      else
        collect_loop resolveF ws ((d.uri, d.imports) :: (u, imps) :: rest)
          (d.uri :: visited) (acc ++ [d])
termination_by stack visited _ => (unvisitedCard ws visited, stackWeight stack)
decreasing_by
  all_goals
    first
    | (apply Prod.Lex.right
       simp only [stackWeight, List.map_cons, List.sum_cons, List.length_cons,
         List.length_nil]
       omega)
    | (apply Prod.Lex.left
       have hmem : d ∈ ws := by
         cases hro : resolveF u imp.path with
         | none => rw [hro] at hd; exact absurd hd (by simp)
         | some r =>
           rw [hro] at hd
           simp only [Option.some_bind] at hd
           exact List.mem_of_find?_eq_some hd
       have huri : d.uri ∈ (ws.map ParsedProto.uri).toFinset := by
         simp only [List.mem_toFinset, List.mem_map]
         exact ⟨d, hmem, rfl⟩
       have hnv : d.uri ∉ visited.toFinset := by
         simp only [List.mem_toFinset]
         exact hv
       apply Finset.card_lt_card
       constructor
       · intro x hx
         simp only [Finset.mem_sdiff, List.toFinset_cons, Finset.mem_insert] at hx ⊢
         exact ⟨hx.1, fun hc => hx.2 (Or.inr hc)⟩
       · intro hsub
         have := hsub (Finset.mem_sdiff.mpr ⟨huri, hnv⟩)
         simp at this)

/-- `WorkspaceManager::collect_all_imports_async` (source lines 110-127):
start from the cached document of the given identity with an empty visited
set and an empty result. -/
def collect_all_imports (resolveF : String → String → Option String)
    (ws : List ParsedProto) (root : String) : List ParsedProto :=
  match lookup_file ws root with
  | some p => collect_loop resolveF ws [(root, p.imports)] [] []
  | none => []

/- ## Parser-level cache (`ProtoParser::parse`, src/parser/proto.rs 147-240) -/

/-- The `ProtoParser` cache `HashMap<String, ParsedProto>` as an association
list (`insert` shadows by consing). -/
def cacheLookup (cache : List (String × ParsedProto)) (uri : String) : Option ParsedProto :=
  (cache.find? (fun p => p.1 == uri)).map Prod.snd

/-- `ProtoParser::parse`: return the cached entry for the uri if present
(ignoring the new content), otherwise run `parse_simple` and cache the
result keyed by the uri (the temp-file I/O performs no computation on the
parse result and is elided). -/
def parser_parse (cache : List (String × ParsedProto)) (uri : String)
    (content : List String) : ParsedProto × List (String × ParsedProto) :=
  match cacheLookup cache uri with
  | some cached => (cached, cache)
  | none =>
    let r := parse_simple uri content
    (r, (uri, r) :: cache)

/-- `ProtoParser::clear_cache`. -/
def clear_cache (_cache : List (String × ParsedProto)) : List (String × ParsedProto) :=
  []

/- ## Concrete inputs and states used by the claim theorems -/

def defaultMsg : MessageElement := .mk ("") ("") [] [] [] 0 0 0

/-- A doubly nested message under a package (claim C1). -/
def exC1lines : List String :=
  [("package p;"), ("message A \x7b"), ("message B \x7b"), ("\x7d"), ("\x7d")]

/-- The spec's single-line example (claim C5). -/
def exC5lines : List String :=
  [("message M \x7b int32 x = 1; \x7d")]

/-- A proto3 file with an `optional`-misuse line inside a message (claim C7). -/
def exC7lines : List String :=
  [("syntax = \"proto3\";"), ("message M \x7b"), ("optional int32 x"), ("\x7d")]

/-- A malformed field inside an otherwise fine message (claim C2). -/
def exC2lines : List String :=
  [("message M \x7b"), ("int32 x = ;"), ("\x7d")]

/-- The bare `message` keyword alone (claim C9). -/
def exC9lines : List String :=
  [("message")]

/-- A message whose field declaration ends in `=`, number on the next line
(claim C6). -/
def exC6lines : List String :=
  [("message M \x7b"), ("    optional int32 x ="), ("        1;"), ("\x7d")]

/-- Scanner state with a pending multi-line field slot (claim C6 witness). -/
def stC6 : ScanState :=
  { initState with
    message_stack := [⟨("M"), 0, [], [], []⟩],
    multiline_field := some (("x"), ("int32"), 0) }

/-- Scanner state with two open message frames (claim C1 witness). -/
def stC1 : ScanState :=
  { initState with
    package := some ("p"),
    message_stack := [⟨("B"), 2, [], [], []⟩, ⟨("A"), 1, [], [], []⟩] }

/-- An enum nested inside a message under a package (claim C1). -/
def exC1EnumLines : List String :=
  [("package p;"), ("message A \x7b"), ("enum E \x7b"), ("\x7d"), ("\x7d")]

/-- Scanner state with an open enum frame inside an open message frame
(claim C1 witness). -/
def stC1E : ScanState :=
  { initState with
    package := some ("p"),
    message_stack := [⟨("A"), 1, [], [], []⟩],
    enum_stack := [⟨("E"), 2, []⟩] }

/-- Predicate of claim C9: an Error diagnostic with the missing-name text at
line `n`. -/
def missingNameAt (n : Nat) (e : ParseError) : Bool :=
  e.message == ("Missing name after message declaration") &&
    e.line == n && decide (e.severity = ErrorSeverity.Error)

/-- Cyclic two-document workspace (claim C4): `a.proto` imports `b.proto`
and vice versa, both cached. -/
def docA : ParsedProto :=
  ⟨("file:///a.proto"), none, [⟨("b.proto"), 2, 0⟩], [], [], [], [], [], none⟩

def docB : ParsedProto :=
  ⟨("file:///b.proto"), none, [⟨("a.proto"), 2, 0⟩], [], [], [], [], [], none⟩

def wsAB : List ParsedProto := [docA, docB]

def resolveAB : String → String → Option String :=
  fun _ p =>
    if p == ("a.proto") then some (("file:///a.proto"))
    else if p == ("b.proto") then some (("file:///b.proto"))
    else none

/-- Filesystem oracle of claim C3's witness: `x.proto` exists both under the
configured root `root1` and in the importing file's directory `dir`. -/
def fsC3 : List String → Bool :=
  fun p => p == [("root1"), ("x.proto")] || p == [("dir"), ("x.proto")]

/-- Two different contents for the same identity (claims C8 and C10). -/
def exLinesM : List String := [("message M \x7b"), ("\x7d")]

def exLinesN : List String := [("message N \x7b"), ("\x7d")]

/- ## Helper lemmas -/

theorem cacheLookup_cons_self (cache : List (String × ParsedProto)) (uri : String)
    (r : ParsedProto) : cacheLookup ((uri, r) :: cache) uri = some r := by
  simp [cacheLookup, List.find?]

theorem ne_of_data_head {s t : String} (hs : s.data.head? ≠ t.data.head?) : s ≠ t :=
  fun he => hs (he ▸ rfl)

/- ## Claim C8 -/

/-- C8: parsing the same (identity, text) pair twice yields structurally
identical ParsedProtos — the second `ProtoParser::parse` call returns the
entry cached by the first (or both return a pre-existing cached entry), so
the two results are equal as whole structures (same names, full names, line
numbers and diagnostics); `parse_simple` itself is a pure function of the
text. -/
theorem c8_reparse_identical (cache : List (String × ParsedProto)) (uri : String)
    (content : List String) :
    (parser_parse (parser_parse cache uri content).2 uri content).1 =
      (parser_parse cache uri content).1 := by
  unfold parser_parse
  cases h : cacheLookup cache uri with
  | some c => simp [h]
  | none => simp [h, cacheLookup_cons_self]

/- ## Claim C10 -/

/-- C10: the parser-level cache is keyed by uri only — once `parse(uri, c1)`
has completed, a later `parse(uri, c2)` returns the result parsed from `c1`,
ignoring `c2`, until `clear_cache` empties the cache, after which `c2` is
parsed afresh. -/
theorem c10_cache_keyed_by_uri (cache : List (String × ParsedProto)) (uri : String)
    (c1 c2 : List String) (h : cacheLookup cache uri = none) :
    (parser_parse (parser_parse cache uri c1).2 uri c2).1 = parse_simple uri c1 ∧
    (parser_parse (clear_cache (parser_parse cache uri c1).2) uri c2).1 =
      parse_simple uri c2 := by
  constructor
  · unfold parser_parse
    simp [h, cacheLookup_cons_self]
  · unfold parser_parse clear_cache
    simp [h, cacheLookup]

theorem c10_cache_keyed_by_uri_witness :
    cacheLookup [] ("file:///t.proto") = none ∧
    (parser_parse (parser_parse [] ("file:///t.proto") exLinesM).2 ("file:///t.proto")
        exLinesN).1 = parse_simple ("file:///t.proto") exLinesM :=
  ⟨rfl, (c10_cache_keyed_by_uri [] ("file:///t.proto") exLinesM exLinesN rfl).1⟩

/- ## Claim C2 -/

/-- C5 counterexample: the single-line input `message M { int32 x = 1; }`
does NOT yield a MessageDef — the scanner recognises a closing brace only
when `}` is the whole trimmed line, so the frame opened for `M` is never
closed and is dropped at end of input; the claim's "exactly one top-level
MessageDef" is false here. -/
theorem c5_counterexample :
    (parse_simple ("u") exC5lines).messages = [] ∧
    (parse_simple ("u") exC5lines).messages.length ≠ 1 := by
  refine ⟨rfl, ?_⟩
  intro h
  simp only [show (parse_simple ("u") exC5lines).messages = [] from rfl] at h
  exact absurd h (by decide)

/-- C5 amended: parsing `message M { int32 x = 1; }` on a single line yields
an empty document — no message, no field and no diagnostic — because the
line-oriented scanner only pops a frame on a line whose trimmed content is
exactly `}`, so the one-line message is never completed. -/
theorem c5_amended :
    parse_simple ("u") exC5lines =
      ⟨("u"), none, [], [], [], [], [], [], none⟩ := rfl

/- ## Claim C1 -/

/-- C1 counterexample: for `package p; message A { message B { } }` the
nested message `B` gets full name `p.B`, not the claimed `p.A.B` — the
enclosing message path is not part of the full name built by
`parse_simple`. -/
theorem c1_counterexample :
    ((parse_simple ("u") exC1lines).messages.map
        (fun m => (m.full_name, m.nested_messages.map MessageElement.full_name))) =
      [(("p.A"), [("p.B")])] ∧ ("p.B") ≠ ("p.A.B") :=
  ⟨rfl, by decide⟩

/-- The flush loop's accumulated message list: each popped frame becomes a
`closeMsgFrame` element appended in pop order. -/
theorem drainGo_messages (content : List String) (pkg : Option String) (el : Nat) :
    ∀ (frames : List MsgFrame) (msgs : List MessageElement)
      (lte : List (Nat × ProtoElement)),
      (drainGo content pkg el frames msgs lte).1 =
        msgs ++ frames.map (fun f => closeMsgFrame content pkg f el) := by
  intro frames
  induction frames with
  | nil =>
    intro msgs lte
    simp [drainGo]
  | cons f rest ih =>
    intro msgs lte
    simp [drainGo, ih]

/-- C1 amended: wherever `parse_simple` completes a message or enum
definition — a message frame closed by a `}` line, an enum frame closed by a
`}` line, or message frames force-flushed by a `service` line — the
element's full name is `package ++ "." ++ own name` when a package has been
declared by that point (just the own name otherwise); the names of the
enclosing message frames still on the stack are NOT part of it, at any
nesting depth; end to end, an enum nested in a message under package `p`
gets full name `p.E`, not `p.A.E`. -/
theorem c1_amended :
    (∀ (content : List String) (st : ScanState) (n : Nat) (mf : MsgFrame)
      (rest : List MsgFrame),
      st.enum_stack = [] → st.message_stack = mf :: rest →
      ∃ e : MessageElement,
        e.name = mf.name ∧ e.full_name = mkFullName st.package mf.name ∧
        ((rest = [] ∧ (closeBraceStep content n st).messages = st.messages ++ [e]) ∨
         (∃ pf prest, rest = pf :: prest ∧
           (closeBraceStep content n st).message_stack =
             { pf with nested_messages := pf.nested_messages ++ [e] } :: prest))) ∧
    (∀ (content : List String) (st : ScanState) (n : Nat) (ef : EnumFrame)
      (erest : List EnumFrame),
      st.enum_stack = ef :: erest →
      ∃ e : EnumElement,
        e.name = ef.name ∧ e.full_name = mkFullName st.package ef.name ∧
        ((st.message_stack = [] ∧
            (closeBraceStep content n st).enums = st.enums ++ [e]) ∨
         (∃ mf mrest, st.message_stack = mf :: mrest ∧
           (closeBraceStep content n st).message_stack =
             { mf with nested_enums := mf.nested_enums ++ [e] } :: mrest))) ∧
    (∀ (content : List String) (processed trimmed : String) (n : Nat) (st : ScanState),
      (serviceStep content processed trimmed n st).messages.map
          (fun m => (m.name, m.full_name)) =
        st.messages.map (fun m => (m.name, m.full_name)) ++
          st.message_stack.map (fun f => (f.name, mkFullName st.package f.name))) ∧
    ((parse_simple ("u") exC1EnumLines).messages.map
        (fun m => (m.full_name, m.nested_enums.map EnumElement.full_name))) =
      [(("p.A"), [("p.E")])] := by
  refine ⟨?_, ?_, ?_, rfl⟩
  · intro content st n mf rest he hm
    cases rest with
    | nil =>
      exact ⟨closeMsgFrame content st.package mf n, rfl, rfl,
        Or.inl ⟨rfl, by simp [closeBraceStep, he, hm]⟩⟩
    | cons pf prest =>
      exact ⟨closeMsgFrame content st.package mf n, rfl, rfl,
        Or.inr ⟨pf, prest, rfl, by simp [closeBraceStep, he, hm]⟩⟩
  · intro content st n ef erest he
    cases hm : st.message_stack with
    | nil =>
      exact ⟨closeEnumFrame content st.package ef n, rfl, rfl,
        Or.inl ⟨rfl, by simp [closeBraceStep, he, hm]⟩⟩
    | cons mf mrest =>
      exact ⟨closeEnumFrame content st.package ef n, rfl, rfl,
        Or.inr ⟨mf, mrest, rfl, by simp [closeBraceStep, he, hm]⟩⟩
  · intro content processed trimmed n st
    have hmsg : (serviceStep content processed trimmed n st).messages =
        st.messages ++
          st.message_stack.map (fun f => closeMsgFrame content st.package f (n - 1)) := by
      simp only [serviceStep]
      split <;>
        exact drainGo_messages content st.package (n - 1) st.message_stack st.messages
          st.line_to_element
    rw [hmsg, List.map_append, List.map_map]
    rfl

theorem c1_amended_witness :
    (∃ e : MessageElement,
      e.name = ("B") ∧ e.full_name = mkFullName (some ("p")) ("B") ∧
      (([⟨("A"), 1, [], [], []⟩] : List MsgFrame) = [] ∧
          (closeBraceStep exC1lines 3 stC1).messages = stC1.messages ++ [e] ∨
        ∃ pf prest, [⟨("A"), 1, [], [], []⟩] = pf :: prest ∧
          (closeBraceStep exC1lines 3 stC1).message_stack =
            { pf with nested_messages := pf.nested_messages ++ [e] } :: prest)) ∧
    (∃ e : EnumElement,
      e.name = ("E") ∧ e.full_name = mkFullName (some ("p")) ("E") ∧
      (stC1E.message_stack = [] ∧
          (closeBraceStep exC1EnumLines 3 stC1E).enums = stC1E.enums ++ [e] ∨
        ∃ mf mrest, stC1E.message_stack = mf :: mrest ∧
          (closeBraceStep exC1EnumLines 3 stC1E).message_stack =
            { mf with nested_enums := mf.nested_enums ++ [e] } :: mrest)) :=
  ⟨c1_amended.1 exC1lines stC1 3 ⟨("B"), 2, [], [], []⟩ [⟨("A"), 1, [], [], []⟩] rfl rfl,
   c1_amended.2.1 exC1EnumLines stC1E 3 ⟨("E"), 2, []⟩ [] rfl⟩

/- ## Claim C3 -/

theorem walk_up_eq_find (fs : List String → Bool) (imp : List String) :
    ∀ (cur : List String),
      walk_up fs imp cur = ((chainUp cur).map (· ++ imp)).find? fs
  | [] => by
    rw [walk_up]
    simp only [chainUp, List.map_cons, List.map_nil, List.nil_append, List.find?]
    cases h : fs imp <;> simp [h, parentOf]
  | a :: t => by
    have hrec := walk_up_eq_find fs imp ((a :: t).dropLast)
    have hne : (a :: t).dropLast ≠ a :: t := by
      intro hE
      have := congrArg List.length hE
      simp [List.length_dropLast] at this
    rw [walk_up, chainUp]
    simp only [List.map_cons, List.find?]
    cases h : fs ((a :: t) ++ imp) with
    | true => simp [h]
    | false =>
      simp only [h, parentOf, hne, if_false, Bool.false_eq_true, if_neg, ite_false]
      rw [hrec]
termination_by cur => cur.length
decreasing_by simp [List.length_dropLast]

/-- C3: import resolution tries each configured additional root (in
configuration order), then the importing file's directory, then each
ancestor directory upward, returning the first existing candidate — i.e.
`resolve_import` equals the first-match search over exactly that candidate
list (`spec_resolve`); in particular, when the import exists under some
configured additional root, the returned path comes from the first such
root even if it also exists elsewhere. -/
theorem c3_resolution_order :
    (∀ (fs : List String → Bool) (dirs : List (List String)) (file imp : List String),
      resolve_import fs dirs file imp = spec_resolve fs dirs file imp) ∧
    (∀ (fs : List String → Bool) (dirs : List (List String)) (file imp d : List String),
      d ∈ dirs → fs (d ++ imp) = true →
      ∃ d', d' ∈ dirs ∧ fs (d' ++ imp) = true ∧
        resolve_import fs dirs file imp = some (d' ++ imp)) := by
  have hmain : ∀ (fs : List String → Bool) (dirs : List (List String))
      (file imp : List String),
      resolve_import fs dirs file imp = spec_resolve fs dirs file imp := by
    intro fs dirs file imp
    unfold resolve_import spec_resolve spec_candidates
    rw [List.find?_append]
    have hmap : List.find? fs (dirs.map (· ++ imp)) =
        Option.map (· ++ imp) (List.find? (fun d => fs (d ++ imp)) dirs) :=
      List.find?_map _ _
    rw [hmap]
    cases hfd : dirs.find? (fun d => fs (d ++ imp)) with
    | some d => simp
    | none =>
      simp only [Option.map_none, Option.none_or]
      cases hp : parentOf file with
      | none => simp
      | some par =>
        rw [← walk_up_eq_find]
        cases h2 : fs (par ++ imp) with
        | true => rw [walk_up]; simp [h2]
        | false => simp [h2]
  refine ⟨hmain, ?_⟩
  intro fs dirs file imp d hd hfs
  cases hfd : dirs.find? (fun x => fs (x ++ imp)) with
  | none =>
    exfalso
    exact (List.find?_eq_none.mp hfd d hd) hfs
  | some d' =>
    have hp' : fs (d' ++ imp) = true := by simpa using List.find?_some hfd
    refine ⟨d', List.mem_of_find?_eq_some hfd, hp', ?_⟩
    rw [hmain]
    unfold spec_resolve spec_candidates
    rw [List.find?_append]
    have hmap : List.find? fs (dirs.map (· ++ imp)) =
        Option.map (· ++ imp) (List.find? (fun x => fs (x ++ imp)) dirs) :=
      List.find?_map _ _
    rw [hmap, hfd]
    simp

theorem c3_resolution_order_witness :
    [("root1")] ∈ [[("root1")]] ∧ fsC3 ([("root1")] ++ [("x.proto")]) = true ∧
    ∃ d', d' ∈ [[("root1")]] ∧ fsC3 (d' ++ [("x.proto")]) = true ∧
      resolve_import fsC3 [[("root1")]] [("dir"), ("f.proto")] [("x.proto")] =
        some (d' ++ [("x.proto")]) :=
  ⟨by decide, by decide,
    c3_resolution_order.2 fsC3 [[("root1")]] [("dir"), ("f.proto")] [("x.proto")]
      [("root1")] (by decide) (by decide)⟩

/- ## Claim C4 -/

theorem collect_loop_nil (rf : String → String → Option String) (ws : List ParsedProto)
    (v : List String) (acc : List ParsedProto) :
    collect_loop rf ws [] v acc = acc := by
  simp [collect_loop]

theorem collect_loop_pop (rf : String → String → Option String) (ws : List ParsedProto)
    (u : String) (rest : List (String × List ImportElement))
    (v : List String) (acc : List ParsedProto) :
    collect_loop rf ws ((u, []) :: rest) v acc = collect_loop rf ws rest v acc := by
  simp [collect_loop]

theorem collect_loop_none (rf : String → String → Option String) (ws : List ParsedProto)
    (u : String) (imp : ImportElement) (imps : List ImportElement)
    (rest : List (String × List ImportElement)) (v : List String) (acc : List ParsedProto)
    (h : (rf u imp.path).bind (lookup_file ws) = none) :
    collect_loop rf ws ((u, imp :: imps) :: rest) v acc =
      collect_loop rf ws ((u, imps) :: rest) v acc := by
  rw [collect_loop]
  split
  · rfl
  · next d' hd' => rw [h] at hd'; cases hd'

theorem collect_loop_visited (rf : String → String → Option String) (ws : List ParsedProto)
    (u : String) (imp : ImportElement) (imps : List ImportElement)
    (rest : List (String × List ImportElement)) (v : List String) (acc : List ParsedProto)
    (d : ParsedProto) (h : (rf u imp.path).bind (lookup_file ws) = some d)
    (hv : d.uri ∈ v) :
    collect_loop rf ws ((u, imp :: imps) :: rest) v acc =
      collect_loop rf ws ((u, imps) :: rest) v acc := by
  rw [collect_loop]
  split
  · rfl
  · next d' hd' =>
    rw [h] at hd'
    cases hd'
    simp [hv]

theorem collect_loop_fresh (rf : String → String → Option String) (ws : List ParsedProto)
    (u : String) (imp : ImportElement) (imps : List ImportElement)
    (rest : List (String × List ImportElement)) (v : List String) (acc : List ParsedProto)
    (d : ParsedProto) (h : (rf u imp.path).bind (lookup_file ws) = some d)
    (hv : d.uri ∉ v) :
    collect_loop rf ws ((u, imp :: imps) :: rest) v acc =
      collect_loop rf ws ((d.uri, d.imports) :: (u, imps) :: rest) (d.uri :: v)
        (acc ++ [d]) := by
  rw [collect_loop]
  split
  · next hd' => exact absurd (hd'.symm.trans h) (by simp)
  · next d' hd' =>
    rw [h] at hd'
    cases hd'
    simp [hv]

theorem collect_loop_nodup (rf : String → String → Option String) (ws : List ParsedProto)
    (stack : List (String × List ImportElement)) (visited : List String)
    (acc : List ParsedProto) :
    (acc.map ParsedProto.uri).Nodup →
    (∀ u ∈ acc.map ParsedProto.uri, u ∈ visited) →
    ((collect_loop rf ws stack visited acc).map ParsedProto.uri).Nodup := by
  induction stack, visited, acc using collect_loop.induct rf ws with
  | case1 v a =>
    intro h1 _
    simpa [collect_loop_nil] using h1
  | case2 u rest v a ih =>
    intro h1 h2
    rw [collect_loop_pop]
    exact ih h1 h2
  | case3 u imp imps rest v a hd ih =>
    intro h1 h2
    rw [collect_loop_none rf ws u imp imps rest v a hd]
    exact ih h1 h2
  | case4 u imp imps rest v a d hd hv ih =>
    intro h1 h2
    rw [collect_loop_visited rf ws u imp imps rest v a d hd hv]
    exact ih h1 h2
  | case5 u imp imps rest v a d hd hv ih =>
    intro h1 h2
    rw [collect_loop_fresh rf ws u imp imps rest v a d hd hv]
    apply ih
    · have hnotin : d.uri ∉ a.map ParsedProto.uri := fun hin => hv (h2 _ hin)
      simp only [List.map_append, List.map_cons, List.map_nil]
      exact List.Nodup.append h1 (by simp) (by simpa [List.disjoint_singleton] using hnotin)
    · intro x hx
      simp only [List.map_append, List.map_cons, List.map_nil, List.mem_append,
        List.mem_singleton] at hx
      rcases hx with hx | hx
      · exact List.mem_cons_of_mem _ (h2 _ hx)
      · rw [hx]; exact List.mem_cons_self _ _

theorem lookup_file_uri {ws : List ParsedProto} {x : String} {d : ParsedProto}
    (h : lookup_file ws x = some d) : d.uri = x := by
  have := List.find?_some h
  simpa using this

/-- C4: transitive-import collection is cycle safe — for every workspace the
returned sequence never repeats a document identity, and on a cached
two-file cycle (A imports B, B imports A) collecting from A terminates with
exactly one entry for B (the traversal also revisits and records A once,
then skips the cycle edge back to B). -/
theorem c4_cycle_safe :
    (∀ (rf : String → String → Option String) (ws : List ParsedProto) (root : String),
      ((collect_all_imports rf ws root).map ParsedProto.uri).Nodup) ∧
    (∀ (rf : String → String → Option String) (ws : List ParsedProto)
      (a b : String) (dA dB : ParsedProto) (iB iA : ImportElement),
      a ≠ b →
      lookup_file ws a = some dA → lookup_file ws b = some dB →
      dA.imports = [iB] → rf a iB.path = some b →
      dB.imports = [iA] → rf b iA.path = some a →
      collect_all_imports rf ws a = [dB, dA] ∧
      ((collect_all_imports rf ws a).filter (fun d => d.uri == b)).length = 1) := by
  constructor
  · intro rf ws root
    unfold collect_all_imports
    cases h : lookup_file ws root with
    | none => simp
    | some p =>
      exact collect_loop_nodup rf ws [(root, p.imports)] [] [] (by simp) (by simp)
  · intro rf ws a b dA dB iB iA hab hlA hlB hdAi hrB hdBi hrA
    have hA : dA.uri = a := lookup_file_uri hlA
    have hB : dB.uri = b := lookup_file_uri hlB
    have hbindB : (rf a iB.path).bind (lookup_file ws) = some dB := by
      rw [hrB, Option.some_bind, hlB]
    have hbindA : (rf b iA.path).bind (lookup_file ws) = some dA := by
      rw [hrA, Option.some_bind, hlA]
    have hcomp : collect_all_imports rf ws a = [dB, dA] := by
      unfold collect_all_imports
      rw [hlA]
      show collect_loop rf ws [(a, dA.imports)] [] [] = [dB, dA]
      rw [hdAi]
      rw [collect_loop_fresh rf ws a iB [] [] [] [] dB hbindB (by simp)]
      simp only [List.nil_append]
      rw [hB, hdBi]
      rw [collect_loop_fresh rf ws b iA [] [(a, [])] [b] [dB] dA hbindA
        (by simp [hA, hab])]
      simp only [List.singleton_append]
      rw [hA, hdAi]
      rw [collect_loop_visited rf ws a iB [] [(b, []), (a, [])] [a, b] [dB, dA] dB
        hbindB (by simp [hB])]
      rw [collect_loop_pop, collect_loop_pop, collect_loop_pop, collect_loop_nil]
    refine ⟨hcomp, ?_⟩
    rw [hcomp]
    have h1 : (dB.uri == b) = true := by simp [hB]
    have h2 : (dA.uri == b) = true → False := by
      rw [hA]
      intro hc
      exact hab (by simpa using hc)
    simp only [List.filter, h1]
    cases h3 : dA.uri == b with
    | true => exact absurd h3 h2
    | false => rfl

theorem c4_cycle_safe_witness :
    collect_all_imports resolveAB wsAB ("file:///a.proto") = [docB, docA] ∧
    ((collect_all_imports resolveAB wsAB ("file:///a.proto")).filter
        (fun d => d.uri == ("file:///b.proto"))).length = 1 :=
  c4_cycle_safe.2 resolveAB wsAB ("file:///a.proto") ("file:///b.proto") docA docB
    ⟨("b.proto"), 2, 0⟩ ⟨("a.proto"), 2, 0⟩ (by decide) rfl rfl rfl rfl rfl rfl

/- ## Claim C9 -/

/-- C9: a scanned line consisting of the bare keyword `message` (outside
block comments and custom-option blocks) yields exactly one Error diagnostic
with text "Missing name after message declaration" at that line, and no
MessageDef is created for it — the state's message list and message stack
are untouched (an additional advisory Warning may accompany it inside an
open message, but never another matching Error); on the whole-input example
the document carries exactly that one diagnostic and no message. -/
theorem c9_missing_name :
    (∀ (content : List String) (st : ScanState) (n : Nat),
      st.in_block_comment = false → st.in_custom_option = false →
      (processLine content st n ("message")).messages = st.messages ∧
      (processLine content st n ("message")).message_stack = st.message_stack ∧
      (processLine content st n ("message")).parse_errors.countP (missingNameAt n) =
        st.parse_errors.countP (missingNameAt n) + 1) ∧
    ((parse_simple ("u") exC9lines).parse_errors =
        [⟨("Missing name after message declaration"), 0, 0, .Error⟩] ∧
      (parse_simple ("u") exC9lines).messages = []) := by
  constructor
  · intro content st n hb hco
    have hpc : processComment st.in_block_comment ("message") = (("message"), false) := by
      rw [hb]; rfl
    unfold processLine
    rw [hpc]
    simp +decide [hco, syntaxFlagStep, customOptionStep, syntaxErrorChecks, scanDispatch,
      enumValueStep, fieldStep, pushErr, stripLineComment]
    rcases h1 : st.enum_stack with _ | ⟨ef, erest⟩ <;>
      rcases h2 : st.message_stack with _ | ⟨mf, mrest⟩ <;>
      rcases h3 : st.multiline_field with _ | ⟨⟨fn, ft, sl⟩⟩ <;>
      simp_all +decide [List.countP_append, List.countP_cons, missingNameAt]
  · exact ⟨rfl, rfl⟩

theorem c9_missing_name_witness :
    (processLine [] initState 5 ("message")).parse_errors.countP (missingNameAt 5) =
      initState.parse_errors.countP (missingNameAt 5) + 1 :=
  (c9_missing_name.1 [] initState 5 rfl rfl).2.2

/- ## Claim C6 -/

/-- C6: multi-line field continuation — when a labelled field line ends in
`=`, the scanner stores (name, type, current line) in the continuation slot;
when a later line supplies the number and semicolon, the completed FieldDef
is pushed with `line` equal to the stored start line, not the continuation
line; end to end, `optional int32 x =` on line 1 with `1;` on line 2 yields
a field recorded at line 1. -/
theorem c6_multiline_start_line :
    (∀ (line processed trimmed : String) (n : Nat) (st : ScanState),
      st.multiline_field = none →
      (sw trimmed ("optional ") || sw trimmed ("required ") || sw trimmed ("repeated ")) =
        true →
      3 ≤ (splitWs trimmed).length → ewc trimmed '=' = true →
      fieldStep line processed trimmed n st =
        { st with
          multiline_field :=
            some ((splitWs trimmed).getD 2 (""), (splitWs trimmed).getD 1 (""), n) }) ∧
    (∀ (line processed trimmed : String) (n : Nat) (st : ScanState)
      (fn ft : String) (sl : Nat) (mf : MsgFrame) (rest : List MsgFrame)
      (ns : String) (k : Int),
      st.multiline_field = some (fn, ft, sl) →
      st.message_stack = mf :: rest →
      strContainsC trimmed ';' = true →
      (splitWs (trimEndAllC ';' (stripLineComment trimmed))).getLast? = some ns →
      parseI32 ns = some k →
      fieldStep line processed trimmed n st =
        { st with
          multiline_field := none,
          message_stack :=
            { mf with fields := mf.fields ++ [⟨fn, ft, none, k, none, sl, 0⟩] } :: rest }) ∧
    ((parse_simple ("u") exC6lines).messages.map
        (fun m => m.fields.map (fun f => (f.name, f.field_type, f.number, f.line)))) =
      [[(("x"), ("int32"), 1, 1)]] := by
  refine ⟨?_, ?_, rfl⟩
  · intro line processed trimmed n st hmf hlabel hlen heq
    simp [fieldStep, hmf, hlabel, hlen, heq]
  · intro line processed trimmed n st fn ft sl mf rest ns k hmf hms hsemi hlast hk
    simp [fieldStep, hmf, hms, hsemi, hlast, hk, pushField]

theorem c6_multiline_start_line_witness :
    fieldStep (("        1;")) (("        1;")) (("1;")) 2 stC6 =
      { stC6 with
        multiline_field := none,
        message_stack :=
          [⟨("M"), 0, [⟨("x"), ("int32"), none, 1, none, 0, 0⟩], [], []⟩] } :=
  c6_multiline_start_line.2.1 (("        1;")) (("        1;")) (("1;")) 2 stC6
    ("x") ("int32") 0 ⟨("M"), 0, [], [], []⟩ [] ("1") 1 rfl rfl (by decide) rfl rfl

/- ## Claim C7 -/

theorem missing_semi_pkg_ne :
    (("Missing semicolon after package declaration") : String) ≠ proto3OptionalMsg := by
  decide

theorem missing_semi_imp_ne :
    (("Missing semicolon after import statement") : String) ≠ proto3OptionalMsg := by
  decide

theorem missing_name_ne (x : String) :
    (("Missing name after ") ++ x ++ (" declaration")) ≠ proto3OptionalMsg := by
  intro he
  have h1 : ((("Missing name after ") ++ x) ++ (" declaration")).data.head? = some ('M') := rfl
  rw [he] at h1
  exact absurd h1 (by decide)

theorem invalid_number_ne (ns : String) :
    (("Invalid field number: \x27") ++ ns ++ ("\x27")) ≠ proto3OptionalMsg := by
  intro he
  have h1 : ((("Invalid field number: \x27") ++ ns) ++ ("\x27")).data.head? = some ('I') := rfl
  rw [he] at h1
  exact absurd h1 (by decide)

theorem invalid_syntax_lbl_ne (t : String) :
    (("Invalid field syntax: \x27") ++ t ++
      ("\x27. Expected format: [optional|required|repeated] type name = number;")) ≠
      proto3OptionalMsg := by
  intro he
  have h1 : ((("Invalid field syntax: \x27") ++ t) ++
      ("\x27. Expected format: [optional|required|repeated] type name = number;")).data.head? =
      some ('I') := rfl
  rw [he] at h1
  exact absurd h1 (by decide)

theorem invalid_syntax_ne (t : String) :
    (("Invalid field syntax: \x27") ++ t ++
      ("\x27. Expected format: type name = number;")) ≠ proto3OptionalMsg := by
  intro he
  have h1 : ((("Invalid field syntax: \x27") ++ t) ++
      ("\x27. Expected format: type name = number;")).data.head? = some ('I') := rfl
  rw [he] at h1
  exact absurd h1 (by decide)

theorem unexpected_ne (t : String) :
    (("Unexpected syntax: \x27") ++ t ++
      ("\x27. If this is a field, it should end with \x27;\x27")) ≠ proto3OptionalMsg := by
  intro he
  have h1 : ((("Unexpected syntax: \x27") ++ t) ++
      ("\x27. If this is a field, it should end with \x27;\x27")).data.head? =
      some ('U') := rfl
  rw [he] at h1
  exact absurd h1 (by decide)

theorem pushField_errors (s : ScanState) (f : FieldElement) :
    (pushField s f).parse_errors = s.parse_errors := by
  unfold pushField; split <;> rfl

/-- The proto3-`optional` lint branch is shadowed by the labelled-field
branch: `fieldStep` never emits `proto3OptionalMsg`. -/
theorem fieldStep_err_mem (line processed trimmed : String) (n : Nat) (st : ScanState)
    (e : ParseError) (he : e ∈ (fieldStep line processed trimmed n st).parse_errors) :
    e ∈ st.parse_errors ∨ e.message ≠ proto3OptionalMsg := by
  simp only [fieldStep, pushErr, pushField] at he
  repeat' split at he
  all_goals
    first
    | exact Or.inl he
    | (simp only [List.mem_append, List.mem_singleton] at he
       rcases he with he | he
       · exact Or.inl he
       · right
         rw [he]
         first
         | exact invalid_number_ne _
         | exact invalid_syntax_lbl_ne _
         | exact invalid_syntax_ne _
         | exact unexpected_ne _)
    | simp_all

theorem enumValueStep_errors (t : String) (n : Nat) (st : ScanState) :
    (enumValueStep t n st).parse_errors = st.parse_errors := by
  simp only [enumValueStep]
  repeat' split
  all_goals rfl

theorem closeBraceStep_errors (content : List String) (n : Nat) (st : ScanState) :
    (closeBraceStep content n st).parse_errors = st.parse_errors := by
  simp only [closeBraceStep]
  repeat' split
  all_goals rfl

theorem serviceStep_errors (content : List String) (processed trimmed : String)
    (n : Nat) (st : ScanState) :
    (serviceStep content processed trimmed n st).parse_errors = st.parse_errors := by
  simp only [serviceStep]
  repeat' split
  all_goals rfl

theorem syntaxFlagStep_errors (trimmed : String) (st : ScanState) :
    (syntaxFlagStep trimmed st).parse_errors = st.parse_errors := by
  simp only [syntaxFlagStep]
  repeat' split
  all_goals rfl

theorem customOptionStep_errors (line trimmed : String) (st : ScanState) :
    (customOptionStep line trimmed st).parse_errors = st.parse_errors := by
  simp only [customOptionStep]
  repeat' split
  all_goals rfl

theorem syntaxErrorChecks_err_mem (line trimmed : String) (n : Nat) (st : ScanState)
    (e : ParseError) (he : e ∈ (syntaxErrorChecks line trimmed n st).parse_errors) :
    e ∈ st.parse_errors ∨ e.message ≠ proto3OptionalMsg := by
  simp only [syntaxErrorChecks, pushErr] at he
  repeat' split at he
  all_goals
    try simp only [List.mem_append, List.mem_singleton] at he
  all_goals
    repeat'
      first
      | exact Or.inl he
      | (right; rw [he]
         first
         | exact missing_semi_pkg_ne
         | exact missing_semi_imp_ne
         | exact missing_name_ne _)
      | (right
         first
         | exact missing_semi_pkg_ne
         | exact missing_semi_imp_ne
         | exact missing_name_ne _)
      | rcases he with he | he

theorem scanDispatch_err_mem (content : List String) (line processed trimmed : String)
    (n : Nat) (st4 : ScanState) (e : ParseError)
    (he : e ∈ (scanDispatch content line processed trimmed n st4).parse_errors) :
    e ∈ st4.parse_errors ∨ e.message ≠ proto3OptionalMsg := by
  simp only [scanDispatch] at he
  repeat' split at he
  all_goals
    first
    | exact Or.inl he
    | (rw [closeBraceStep_errors] at he; exact Or.inl he)
    | (rw [serviceStep_errors] at he; exact Or.inl he)
    | (rw [enumValueStep_errors] at he; exact Or.inl he)
    | exact fieldStep_err_mem _ _ _ _ _ _ he

theorem processLine_err_mem (content : List String) (st : ScanState) (n : Nat)
    (line : String) (e : ParseError)
    (he : e ∈ (processLine content st n line).parse_errors) :
    e ∈ st.parse_errors ∨ e.message ≠ proto3OptionalMsg := by
  simp only [processLine] at he
  split at he
  · exact Or.inl he
  · split at he
    · exact Or.inl he
    · rcases scanDispatch_err_mem _ _ _ _ _ _ _ he with he2 | hne
      · rcases syntaxErrorChecks_err_mem _ _ _ _ _ he2 with he3 | hne
        · rw [customOptionStep_errors, syntaxFlagStep_errors] at he3
          exact Or.inl he3
        · exact Or.inr hne
      · exact Or.inr hne

theorem goLines_err_mem (content : List String) :
    ∀ (ls : List String) (n : Nat) (st : ScanState) (e : ParseError),
      e ∈ (goLines content ls n st).parse_errors →
      e ∈ st.parse_errors ∨ e.message ≠ proto3OptionalMsg := by
  intro ls
  induction ls with
  | nil =>
    intro n st e he
    exact Or.inl he
  | cons l rest ih =>
    intro n st e he
    simp only [goLines] at he
    rcases ih (n + 1) _ e he with he2 | hne
    · exact processLine_err_mem content st n l e he2
    · exact Or.inr hne

/-- C7 counterexample: on a proto3 input whose message contains the
`optional`-misuse line `optional int32 x`, the parse produces NO diagnostic
at all (in particular no Warning-severity one) — the lint branch is
unreachable because every line starting with `optional ` is consumed by the
labelled-field branch first — while parsing continues and `M` is still
recorded. -/
theorem c7_counterexample :
    (parse_simple ("u") exC7lines).parse_errors = [] ∧
    (parse_simple ("u") exC7lines).messages.map MessageElement.name = [("M")] :=
  ⟨rfl, rfl⟩

/-- C7 amended: no input ever produces the proto3-`optional` misuse
diagnostic — its branch is dead code (and even its text carries Error, not
Warning, severity in the source); every diagnostic the scanner emits has a
different message. -/
theorem c7_amended (uri : String) (content : List String) (e : ParseError)
    (he : e ∈ (parse_simple uri content).parse_errors) :
    e.message ≠ proto3OptionalMsg := by
  rcases goLines_err_mem content content 0 initState e he with h | h
  · exact absurd h (by simp [initState])
  · exact h

theorem c7_amended_witness :
    (⟨("Invalid field syntax: \x27int32 x = ;\x27. Expected format: type name = number;"),
        1, 0, .Error⟩ : ParseError) ∈ (parse_simple ("u") exC2lines).parse_errors ∧
    (⟨("Invalid field syntax: \x27int32 x = ;\x27. Expected format: type name = number;"),
        1, 0, .Error⟩ : ParseError).message ≠ proto3OptionalMsg := by
  have hm : (⟨("Invalid field syntax: \x27int32 x = ;\x27. Expected format: type name = number;"),
      1, 0, .Error⟩ : ParseError) ∈ (parse_simple ("u") exC2lines).parse_errors := by
    have h : (parse_simple ("u") exC2lines).parse_errors =
        [⟨("Invalid field syntax: \x27int32 x = ;\x27. Expected format: type name = number;"),
          1, 0, .Error⟩] := rfl
    rw [h]
    exact List.mem_singleton.mpr rfl
  exact ⟨hm, c7_amended ("u") exC2lines _ hm⟩
